import Mathlib

/-!
# Verification of the OAuth token-lifecycle subsystem of a Spotify Web API client

Shallow embedding of the authentication code of the repository
(`src/auth/auth_code.ts`, `src/auth/implicit_grant.ts`) together with the
helpers they import (query-string codec, basic-auth header, auth provider),
which are modelled from the specification where their source is not part of
the repository snapshot.

Strings are modelled as lists of byte values (`List Nat`, each entry < 256);
`bs` converts an ASCII literal.
-/

namespace Soundify

/-- Byte-string literal helper: ASCII string to list of byte values. -/
def bs (s : String) : List Nat := s.toList.map Char.toNat

/-- All entries of a byte string are actual bytes. -/
def validBytes (s : List Nat) : Bool := s.all (fun b => b < 256)

/-! ## QueryCodec

Modelled from the spec: the repository imports `toQueryString` from
`shared.ts` and `objectToSearchParams` from `shared/mod.ts`, files absent
from the snapshot.  Spec section 4.1 describes them: encode keeps only the
present entries, percent-encodes each key and value per standard URL query
rules, joins pairs with `&`; decode splits a query string into a flat
mapping, never throws, last occurrence of a duplicate key wins. -/

/-- Unreserved query bytes that are emitted verbatim: ALPHA, DIGIT, `-`, `.`, `_`, `~`. -/
def isUnreserved (b : Nat) : Bool :=
  (48 ≤ b && b ≤ 57) || (65 ≤ b && b ≤ 90) || (97 ≤ b && b ≤ 122) ||
    b == 45 || b == 46 || b == 95 || b == 126

/-- Uppercase hexadecimal digit character code for a value below 16. -/
def hexDigitChar (n : Nat) : Nat := if n < 10 then 48 + n else 55 + n

/-- Percent-encoding of a single byte: unreserved bytes stay, others become `%XY`. -/
def encodeByte (b : Nat) : List Nat :=
  if isUnreserved b then [b] else [37, hexDigitChar (b / 16 % 16), hexDigitChar (b % 16)]

/-- Percent-encoding of a byte string. -/
def percentEncode (s : List Nat) : List Nat := s.flatMap encodeByte

/-- Value of a hexadecimal digit character, when it is one. -/
def hexVal (c : Nat) : Option Nat :=
  if 48 ≤ c && c ≤ 57 then some (c - 48)
  else if 65 ≤ c && c ≤ 70 then some (c - 55)
  else if 97 ≤ c && c ≤ 102 then some (c - 87)
  else none

/-- Decoding of a byte that is not part of a percent escape: `+` is a space. -/
def decodePlain (b : Nat) : Nat := if b = 43 then 32 else b

/-- Percent-decoding: `%XY` becomes the byte `XY`, `+` becomes a space,
malformed escapes are kept literally; never fails. -/
def percentDecode : List Nat → List Nat
  | [] => []
  | [b] => [decodePlain b]
  | [b, c] => [decodePlain b, decodePlain c]
  | b :: c1 :: c2 :: rest =>
    if b = 37 then
      match hexVal c1, hexVal c2 with
      | some h, some l => (16 * h + l) :: percentDecode rest
      | _, _ => 37 :: percentDecode (c1 :: c2 :: rest)
    else decodePlain b :: percentDecode (c1 :: c2 :: rest)

/-- Split a byte string on a separator byte; inverse of joining with it. -/
def splitSep (sep : Nat) : List Nat → List (List Nat)
  | [] => [[]]
  | b :: rest =>
    if b = sep then [] :: splitSep sep rest
    else
      match splitSep sep rest with
      | p :: ps => (b :: p) :: ps
      | [] => [[b]]

/-- Join byte strings with a separator byte between consecutive pieces. -/
def joinSep (sep : Nat) : List (List Nat) → List Nat
  | [] => []
  | [p] => p
  | p :: ps => p ++ sep :: joinSep sep ps

/-- Split a query piece at its first `=` into key and value. -/
def splitEq : List Nat → List Nat × List Nat
  | [] => ([], [])
  | b :: rest =>
    if b = 61 then ([], rest)
    else
      let kv := splitEq rest
      (b :: kv.1, kv.2)

/-- Encoded `key=value` pair. -/
def encodePair (k v : List Nat) : List Nat := percentEncode k ++ 61 :: percentEncode v

/-- Entries of a parameter mapping that are present (not `undefined`). -/
def presentEntries (m : List (List Nat × Option (List Nat))) : List (List Nat × List Nat) :=
  m.filterMap (fun kv => kv.2.map (fun v => (kv.1, v)))

/-- QueryCodec.encode: keep present entries in insertion order, percent-encode
each key and value, join pairs with ampersands. -/
def toQueryString (m : List (List Nat × Option (List Nat))) : List Nat :=
  joinSep 38 ((presentEntries m).map (fun kv => encodePair kv.1 kv.2))

/-- QueryCodec.decode to the sequence of key-value pairs, duplicates kept in order. -/
def decodeQuery (s : List Nat) : List (List Nat × List Nat) :=
  if s = [] then []
  else (splitSep 38 s).map (fun p =>
    let kv := splitEq p
    (percentDecode kv.1, percentDecode kv.2))

/-- Insert a key-value pair into a flat mapping, JavaScript object style:
an existing key keeps its position and takes the new value, a new key is
appended. -/
def setEntry (l : List (List Nat × List Nat)) (k v : List Nat) : List (List Nat × List Nat) :=
  if l.any (fun p => p.1 = k) then
    l.map (fun p => if p.1 = k then (k, v) else p)
  else l ++ [(k, v)]

/-- Object.fromEntries on a pair sequence: last occurrence of a key wins. -/
def fromEntries (l : List (List Nat × List Nat)) : List (List Nat × List Nat) :=
  l.foldl (fun acc kv => setEntry acc kv.1 kv.2) []

/-- First value bound to a key in a flat mapping. -/
def lookupKey (k : List Nat) : List (List Nat × List Nat) → Option (List Nat)
  | [] => none
  | kv :: rest => if kv.1 = k then some kv.2 else lookupKey k rest

/-- Key presence test, as the JavaScript `in` operator on the decoded object. -/
def hasKey (l : List (List Nat × List Nat)) (k : List Nat) : Bool :=
  l.any (fun p => p.1 = k)

/-! ### Codec roundtrip lemmas -/

theorem hexVal_hexDigitChar : ∀ n < 16, hexVal (hexDigitChar n) = some n := by decide

theorem isUnreserved_ne (b : Nat) (h : isUnreserved b = true) :
    b ≠ 37 ∧ b ≠ 43 ∧ b ≠ 38 ∧ b ≠ 61 := by
  simp only [isUnreserved, Bool.or_eq_true, Bool.and_eq_true, decide_eq_true_eq,
    beq_iff_eq] at h
  omega

theorem percentDecode_cons_ne37 (b : Nat) (h37 : b ≠ 37) (rest : List Nat) :
    percentDecode (b :: rest) = decodePlain b :: percentDecode rest := by
  match rest with
  | [] => simp [percentDecode]
  | [c] => simp [percentDecode]
  | c1 :: c2 :: rest2 => simp [percentDecode, h37]

theorem percentDecode_encodeByte (b : Nat) (hb : b < 256) (rest : List Nat) :
    percentDecode (encodeByte b ++ rest) = b :: percentDecode rest := by
  by_cases h : isUnreserved b
  · obtain ⟨h37, h43, _, _⟩ := isUnreserved_ne b h
    rw [show encodeByte b = [b] from by simp [encodeByte, h], List.cons_append,
      List.nil_append, percentDecode_cons_ne37 b h37]
    simp [decodePlain, h43]
  · rw [show encodeByte b = [37, hexDigitChar (b / 16 % 16), hexDigitChar (b % 16)] from by
      simp [encodeByte, h]]
    simp only [List.cons_append, List.nil_append, percentDecode, if_pos rfl]
    rw [hexVal_hexDigitChar (b / 16 % 16) (by omega), hexVal_hexDigitChar (b % 16) (by omega)]
    have hb16 : 16 * (b / 16 % 16) + b % 16 = b := by omega
    simp [hb16]

theorem percentDecode_percentEncode (s : List Nat) (hs : validBytes s = true) :
    percentDecode (percentEncode s) = s := by
  induction s with
  | nil => rfl
  | cons b rest ih =>
    simp only [validBytes, List.all_cons, Bool.and_eq_true, decide_eq_true_eq] at hs
    have hrest : percentDecode (percentEncode rest) = rest := by
      apply ih
      simp only [validBytes]
      exact hs.2
    have hstep : percentEncode (b :: rest) = encodeByte b ++ percentEncode rest := by
      simp [percentEncode]
    rw [hstep, percentDecode_encodeByte b hs.1, hrest]

theorem hexDigitChar_lt16_ne (n : Nat) (hn : n < 16) :
    hexDigitChar n ≠ 38 ∧ hexDigitChar n ≠ 61 := by
  unfold hexDigitChar
  split <;> omega

theorem mem_encodeByte_ne (b x : Nat) (hx : x ∈ encodeByte b) : x ≠ 38 ∧ x ≠ 61 := by
  by_cases h : isUnreserved b
  · rw [show encodeByte b = [b] from by simp [encodeByte, h], List.mem_singleton] at hx
    subst hx
    exact ⟨(isUnreserved_ne _ h).2.2.1, (isUnreserved_ne _ h).2.2.2⟩
  · rw [show encodeByte b = [37, hexDigitChar (b / 16 % 16), hexDigitChar (b % 16)] from by
      simp [encodeByte, h]] at hx
    simp only [List.mem_cons, List.mem_singleton, List.not_mem_nil, or_false] at hx
    rcases hx with rfl | rfl | rfl
    · omega
    · exact hexDigitChar_lt16_ne _ (by omega)
    · exact hexDigitChar_lt16_ne _ (by omega)

theorem mem_percentEncode_ne (s : List Nat) (x : Nat) (hx : x ∈ percentEncode s) :
    x ≠ 38 ∧ x ≠ 61 := by
  simp only [percentEncode, List.mem_flatMap] at hx
  obtain ⟨b, _, hb⟩ := hx
  exact mem_encodeByte_ne b x hb

theorem splitSep_append (sep : Nat) (p rest : List Nat) (hp : sep ∉ p) :
    splitSep sep (p ++ sep :: rest) = p :: splitSep sep rest := by
  induction p with
  | nil => simp [splitSep]
  | cons b p ih =>
    simp only [List.mem_cons, not_or] at hp
    have hb : b ≠ sep := fun hq => hp.1 hq.symm
    have hr := ih hp.2
    simp only [List.cons_append, splitSep, List.append_eq]
    rw [if_neg hb, hr]

theorem splitSep_no_sep (sep : Nat) (p : List Nat) (hp : sep ∉ p) :
    splitSep sep p = [p] := by
  induction p with
  | nil => rfl
  | cons b p ih =>
    simp only [List.mem_cons, not_or] at hp
    have hb : b ≠ sep := fun hq => hp.1 hq.symm
    simp only [splitSep, ih hp.2]
    rw [if_neg hb]

theorem splitSep_joinSep (sep : Nat) (pieces : List (List Nat)) (hne : pieces ≠ [])
    (hfree : ∀ p ∈ pieces, sep ∉ p) :
    splitSep sep (joinSep sep pieces) = pieces := by
  induction pieces with
  | nil => exact absurd rfl hne
  | cons p ps ih =>
    cases ps with
    | nil => exact splitSep_no_sep sep p (hfree p (by simp))
    | cons q qs =>
      have hj : joinSep sep (p :: q :: qs) = p ++ sep :: joinSep sep (q :: qs) := rfl
      rw [hj, splitSep_append sep p _ (hfree p (by simp)),
        ih (by simp) (fun r hr => hfree r (List.mem_cons_of_mem p hr))]

theorem joinSep_ne_nil (sep : Nat) (pieces : List (List Nat)) (hne : pieces ≠ [])
    (hp : ∀ p ∈ pieces, p ≠ []) : joinSep sep pieces ≠ [] := by
  cases pieces with
  | nil => exact absurd rfl hne
  | cons p ps =>
    cases ps with
    | nil => exact hp p (by simp)
    | cons q qs =>
      have hj : joinSep sep (p :: q :: qs) = p ++ sep :: joinSep sep (q :: qs) := rfl
      rw [hj]
      simp

theorem splitEq_append (k v : List Nat) (hk : 61 ∉ k) :
    splitEq (k ++ 61 :: v) = (k, v) := by
  induction k with
  | nil => simp [splitEq]
  | cons b k ih =>
    simp only [List.mem_cons, not_or] at hk
    have hb : b ≠ 61 := fun hq => hk.1 hq.symm
    simp only [List.cons_append, splitEq, List.append_eq]
    rw [if_neg hb, ih hk.2]

theorem splitEq_encodePair (k v : List Nat) :
    splitEq (encodePair k v) = (percentEncode k, percentEncode v) := by
  exact splitEq_append _ _ (fun h => (mem_percentEncode_ne k 61 h).2 rfl)

theorem encodePair_amp_free (k v : List Nat) : (38 : Nat) ∉ encodePair k v := by
  intro h
  simp only [encodePair, List.mem_append, List.mem_cons] at h
  rcases h with h | h | h
  · exact (mem_percentEncode_ne k 38 h).1 rfl
  · omega
  · exact (mem_percentEncode_ne v 38 h).1 rfl

/-- Entry validity: all keys and present values are byte strings. -/
def validEntries (m : List (List Nat × Option (List Nat))) : Bool :=
  m.all (fun kv => validBytes kv.1 &&
    (match kv.2 with
     | some v => validBytes v
     | none => true))

theorem mem_presentEntries (m : List (List Nat × Option (List Nat))) (k v : List Nat) :
    (k, v) ∈ presentEntries m ↔ (k, some v) ∈ m := by
  simp only [presentEntries, List.mem_filterMap]
  constructor
  · rintro ⟨⟨k0, v0⟩, hm, hmap⟩
    cases v0 <;> simp_all
  · intro hm
    exact ⟨(k, some v), hm, rfl⟩

theorem presentEntries_valid (m : List (List Nat × Option (List Nat)))
    (hm : validEntries m = true) (k v : List Nat) (hkv : (k, v) ∈ presentEntries m) :
    validBytes k = true ∧ validBytes v = true := by
  rw [mem_presentEntries] at hkv
  have := List.all_eq_true.mp hm (k, some v) hkv
  simpa using this

/-- QueryCodec roundtrip at the level of entry sequences: decoding the encoding
of a mapping yields exactly its present entries, in order. -/
theorem decodeQuery_toQueryString (m : List (List Nat × Option (List Nat)))
    (hm : validEntries m = true) :
    decodeQuery (toQueryString m) = presentEntries m := by
  rcases he : presentEntries m with _ | ⟨e0, es⟩
  · simp [toQueryString, he, joinSep, decodeQuery]
  · have hval : ∀ kv ∈ presentEntries m, validBytes kv.1 = true ∧ validBytes kv.2 = true :=
      fun kv hkv => presentEntries_valid m hm kv.1 kv.2 hkv
    have hpieces_ne : (presentEntries m).map (fun kv => encodePair kv.1 kv.2) ≠ [] := by
      rw [he]; simp
    have hpiece_nonnil : ∀ p ∈ (presentEntries m).map (fun kv => encodePair kv.1 kv.2),
        p ≠ [] := by
      intro p hp
      simp only [List.mem_map] at hp
      obtain ⟨kv, _, rfl⟩ := hp
      simp [encodePair]
    have hs_ne : toQueryString m ≠ [] :=
      joinSep_ne_nil 38 _ hpieces_ne hpiece_nonnil
    have hfree : ∀ p ∈ (presentEntries m).map (fun kv => encodePair kv.1 kv.2),
        (38 : Nat) ∉ p := by
      intro p hp
      simp only [List.mem_map] at hp
      obtain ⟨kv, _, rfl⟩ := hp
      exact encodePair_amp_free kv.1 kv.2
    rw [decodeQuery, if_neg hs_ne, toQueryString, splitSep_joinSep 38 _ hpieces_ne hfree,
      List.map_map]
    rw [← he]
    conv_rhs => rw [show presentEntries m = (presentEntries m).map id from by simp]
    apply List.map_congr_left
    intro kv hkv
    have hv := hval kv hkv
    simp only [Function.comp_apply, splitEq_encodePair, id_eq]
    rw [percentDecode_percentEncode kv.1 hv.1, percentDecode_percentEncode kv.2 hv.2]

/-! ## Basic-auth header

Modelled from the spec: `getBasicAuthHeader` lives in `auth/general.ts`,
absent from the snapshot.  Spec section 4.2: the header value is
`"Basic " + base64(client_id + ":" + client_secret)`, with no escaping of
`:` inside the identifiers. -/

/-- Character of the standard base64 alphabet for a 6-bit value. -/
def base64Char (n : Nat) : Nat :=
  if n < 26 then 65 + n
  else if n < 52 then 97 + (n - 26)
  else if n < 62 then 48 + (n - 52)
  else if n = 62 then 43
  else 47

/-- Standard base64 of a byte string, with `=` padding. -/
def base64Encode : List Nat → List Nat
  | b1 :: b2 :: b3 :: rest =>
    base64Char (b1 / 4 % 64) :: base64Char (b1 % 4 * 16 + b2 / 16) ::
      base64Char (b2 % 16 * 4 + b3 / 64) :: base64Char (b3 % 64) :: base64Encode rest
  | [b1, b2] =>
    [base64Char (b1 / 4 % 64), base64Char (b1 % 4 * 16 + b2 / 16), base64Char (b2 % 16 * 4), 61]
  | [b1] => [base64Char (b1 / 4 % 64), base64Char (b1 % 4 * 16), 61, 61]
  | [] => []

/-- Basic authentication header value from client id and secret. -/
def getBasicAuthHeader (client_id client_secret : List Nat) : List Nat :=
  bs "Basic " ++ base64Encode (client_id ++ bs ":" ++ client_secret)

/-! ## HTTP and JSON model -/

/-- Minimal JSON value model for token-endpoint response bodies. -/
inductive Json where
  | null
  | str (s : List Nat)
  | num (n : Nat)
  | obj (fields : List (List Nat × Json))

/-- Field lookup in a JSON object; anything else has no fields. -/
def jsonField : Json → List Nat → Option Json
  | .obj fields, k => fields.lookup k
  | _, _ => none

/-- URL as constructed by the code: a fixed base plus the assigned search string. -/
structure UrlModel where
  base : List Nat
  query : List Nat
deriving DecidableEq

/-- Outgoing HTTP request as handed to `fetch`. -/
structure HttpRequest where
  url : UrlModel
  method : List Nat
  headers : List (List Nat × List Nat)
  body : Option (List Nat)
deriving DecidableEq

/-- Incoming HTTP response with its status and parsed JSON body. -/
structure HttpResponse where
  status : Nat
  json : Json

/-- Response.ok of the Fetch API: status in the 2xx range. -/
def isOk (status : Nat) : Bool := 200 ≤ status && status < 300

/-- Authentication failure raised on a non-success token-endpoint status.
Modelled from the spec: `SpotifyAuthError.create` lives in `auth/general.ts`,
absent from the snapshot; section 7 has it carry the parsed error body
(`error`, optional `error_description`) and the HTTP status code. -/
structure SpotifyAuthError where
  error : Option Json
  error_description : Option Json
  status : Nat

/-- Build the auth error from a response, per spec section 7. -/
def SpotifyAuthError.create (res : HttpResponse) : SpotifyAuthError :=
  { error := jsonField res.json (bs "error")
    error_description := jsonField res.json (bs "error_description")
    status := res.status }

/-! ## AuthCode flow (`src/auth/auth_code.ts`) -/

/-- Fixed Spotify account-service base URL (`SPOTIFY_AUTH` in `auth/general.ts`,
modelled from the spec's fixed authorization/token endpoints). -/
def SPOTIFY_AUTH : List Nat := bs "https://accounts.spotify.com/"

/-- Fixed authorization endpoint URL (`AUTHORIZE_URL` in `auth/general.ts`). -/
def AUTHORIZE_URL : List Nat := SPOTIFY_AUTH ++ bs "authorize"

/-- Form content type (`URL_ENCODED` in `auth/general.ts`). -/
def URL_ENCODED : List Nat := bs "application/x-www-form-urlencoded"

/-- Spotify application credentials held by an `AuthCode` instance. -/
structure SpotifyCreds where
  client_id : List Nat
  client_secret : List Nat
deriving DecidableEq

/-- Options of `AuthCode.getAuthURL`. -/
structure GetAuthURLOpts where
  redirect_uri : List Nat
  state : Option (List Nat)
  scopes : Option (List (List Nat))
  show_dialog : Option Bool
deriving DecidableEq

/-- JavaScript stringification of a boolean query value. -/
def boolBytes (b : Bool) : List Nat := if b then bs "true" else bs "false"

/-- Array.prototype.join with a single space. -/
def joinSpace (l : List (List Nat)) : List Nat := joinSep 32 l

/-- Parameter object passed to `toQueryString` by `AuthCode.getAuthURL`:
`response_type` is the literal `"code"`, `scope` is the space-joined scope
list when one was given, and the remaining options are spread in. -/
def getAuthURLEntries (creds : SpotifyCreds) (opts : GetAuthURLOpts) :
    List (List Nat × Option (List Nat)) :=
  [(bs "response_type", some (bs "code")),
   (bs "scope", opts.scopes.map joinSpace),
   (bs "client_id", some creds.client_id),
   (bs "redirect_uri", some opts.redirect_uri),
   (bs "state", opts.state),
   (bs "show_dialog", opts.show_dialog.map boolBytes)]

/-- `AuthCode.getAuthURL`: the authorize endpoint with the encoded options. -/
def getAuthURL (creds : SpotifyCreds) (opts : GetAuthURLOpts) : UrlModel :=
  { base := SPOTIFY_AUTH ++ bs "authorize"
    query := toQueryString (getAuthURLEntries creds opts) }

/-- Parameter object of the token request of `AuthCode.getGrantData`. -/
def getGrantDataEntries (redirect_uri code : List Nat) :
    List (List Nat × Option (List Nat)) :=
  [(bs "code", some code),
   (bs "redirect_uri", some redirect_uri),
   (bs "grant_type", some (bs "authorization_code"))]

/-- The single request `AuthCode.getGrantData` hands to `fetch`: POST to the
token endpoint, parameters in the URL search string, basic-auth and form
content-type headers, and no body. -/
def getGrantDataRequest (creds : SpotifyCreds) (redirect_uri code : List Nat) : HttpRequest :=
  { url := { base := SPOTIFY_AUTH ++ bs "api/token"
             query := toQueryString (getGrantDataEntries redirect_uri code) }
    method := bs "POST"
    headers := [(bs "Authorization", getBasicAuthHeader creds.client_id creds.client_secret),
                (bs "Content-Type", URL_ENCODED)]
    body := none }

/-- `AuthCode.getGrantData` over a pure transport: the result together with the
list of requests issued during the call. -/
def getGrantData (fetchFn : HttpRequest → HttpResponse) (creds : SpotifyCreds)
    (redirect_uri code : List Nat) : Except SpotifyAuthError Json × List HttpRequest :=
  let req := getGrantDataRequest creds redirect_uri code
  let res := fetchFn req
  (if isOk res.status then .ok res.json else .error (SpotifyAuthError.create res), [req])

/-- Parameter object of the token request of `AuthCode.refresh`. -/
def refreshEntries (refresh_token : List Nat) : List (List Nat × Option (List Nat)) :=
  [(bs "refresh_token", some refresh_token),
   (bs "grant_type", some (bs "refresh_token"))]

/-- The single request `AuthCode.refresh` hands to `fetch`. -/
def refreshRequest (creds : SpotifyCreds) (refresh_token : List Nat) : HttpRequest :=
  { url := { base := SPOTIFY_AUTH ++ bs "api/token"
             query := toQueryString (refreshEntries refresh_token) }
    method := bs "POST"
    headers := [(bs "Authorization", getBasicAuthHeader creds.client_id creds.client_secret),
                (bs "Content-Type", URL_ENCODED)]
    body := none }

/-- `AuthCode.refresh` over a pure transport, with its request log. -/
def refresh (fetchFn : HttpRequest → HttpResponse) (creds : SpotifyCreds)
    (refresh_token : List Nat) : Except SpotifyAuthError Json × List HttpRequest :=
  let req := refreshRequest creds refresh_token
  let res := fetchFn req
  (if isOk res.status then .ok res.json else .error (SpotifyAuthError.create res), [req])

/-! ## Implicit grant flow (`src/auth/implicit_grant.ts`) -/

/-- Options of `getRedirectURL`. -/
structure GetRedirectURLOpts where
  scopes : Option (List (List Nat))
  show_dialog : Option Bool
  client_id : List Nat
  redirect_uri : List Nat
  state : Option (List Nat)
deriving DecidableEq

/-- Parameter object passed to `objectToSearchParams` by `getRedirectURL`:
`response_type` is the literal `"token"`, `scope` the space-joined scope list
when one was given, and the remaining options are spread in. -/
def getRedirectURLEntries (opts : GetRedirectURLOpts) :
    List (List Nat × Option (List Nat)) :=
  [(bs "response_type", some (bs "token")),
   (bs "scope", opts.scopes.map joinSpace),
   (bs "show_dialog", opts.show_dialog.map boolBytes),
   (bs "client_id", some opts.client_id),
   (bs "redirect_uri", some opts.redirect_uri),
   (bs "state", opts.state)]

/-- `getRedirectURL`: the authorize endpoint with the encoded options. -/
def getRedirectURL (opts : GetRedirectURLOpts) : UrlModel :=
  { base := AUTHORIZE_URL
    query := toQueryString (getRedirectURLEntries opts) }

/-- `parseCallbackData`: drop the first character of the fragment, decode the
rest as search parameters into an object; return it when it has an `error`
key, or when it has all of `access_token`, `expires_in` and `token_type`;
otherwise throw (`none`). -/
def parseCallbackData (hash : List Nat) : Option (List (List Nat × List Nat)) :=
  let params := fromEntries (decodeQuery (hash.drop 1))
  if hasKey params (bs "error") then some params
  else if hasKey params (bs "access_token") && hasKey params (bs "expires_in") &&
      hasKey params (bs "token_type") then some params
  else none

/-! ## AuthProvider

Modelled from the spec: `createAuthProvider` lives in `auth/general.ts`,
absent from the snapshot.  Spec section 4.4: the provider caches an access
token with an absolute expiry (`expires_at = now + expires_in`), evaluates
expiry lazily at each `getAccessToken` call, refreshes when it has no cached
token or the cached one is no longer valid, and on a refresh failure keeps
its state and propagates the failure. -/

/-- Token cached by an auth provider. -/
structure CachedToken where
  access_token : List Nat
  expires_at : Nat
deriving DecidableEq

/-- Access token and lifetime extracted from a token-endpoint response. -/
structure TokenPairLite where
  access_token : List Nat
  expires_in : Nat
deriving DecidableEq

/-- Outcome of one invocation of the refresh function. -/
inductive RefreshOutcome where
  | ok (t : TokenPairLite)
  | failed
deriving DecidableEq

/-- Refresh path of `getAccessToken`: invoke the refresher (counted as one
invocation); on success cache the new token with `expires_at = now +
expires_in`, on failure keep the state and report no token. -/
def refreshStep (now : Nat) (outcome : RefreshOutcome) (st : Option CachedToken) :
    Option (List Nat) × Option CachedToken × Nat :=
  match outcome with
  | .ok t => (some t.access_token, some ⟨t.access_token, now + t.expires_in⟩, 1)
  | .failed => (none, st, 1)

/-- One `getAccessToken` call at time `now`: result, next state, and the number
of refresh-function invocations the call performs. -/
def getAccessToken (now : Nat) (outcome : RefreshOutcome) (st : Option CachedToken) :
    Option (List Nat) × Option CachedToken × Nat :=
  match st with
  | some c =>
    if now < c.expires_at then (some c.access_token, some c, 0)
    else refreshStep now outcome (some c)
  | none => refreshStep now outcome none

/-- A provider state that forces a refresh: no cached token, or one whose
expiry time is not after the current time. -/
def needsRefresh (st : Option CachedToken) (now : Nat) : Prop :=
  st = none ∨ ∃ c, st = some c ∧ c.expires_at ≤ now

/-- Extraction of the cached fields from a token-endpoint JSON response, as
the provider glue does when wiring `AuthCode.refresh` into the provider. -/
def tokenOfJson (j : Json) : Option TokenPairLite :=
  match jsonField j (bs "access_token"), jsonField j (bs "expires_in") with
  | some (.str t), some (.num n) => some ⟨t, n⟩
  | _, _ => none

/-- Refresh outcome of the refresher that `AuthCode.createAuthProvider` builds:
it always invokes `AuthCode.refresh` with the captured refresh token. -/
def providerRefreshOutcome (fetchFn : HttpRequest → HttpResponse) (creds : SpotifyCreds)
    (refresh_token : List Nat) : RefreshOutcome :=
  match (refresh fetchFn creds refresh_token).1 with
  | .ok j =>
    match tokenOfJson j with
    | some t => .ok t
    | none => .failed
  | .error _ => .failed

/-- Requests issued by one invocation of the refresher built by
`AuthCode.createAuthProvider`. -/
def providerRefreshRequests (fetchFn : HttpRequest → HttpResponse) (creds : SpotifyCreds)
    (refresh_token : List Nat) : List HttpRequest :=
  (refresh fetchFn creds refresh_token).2

/-- Run a provider built by `AuthCode.createAuthProvider` through a sequence of
`getAccessToken` calls at the given times, collecting every request that its
refresher sends over the wire. -/
def runProviderLog (fetchFn : HttpRequest → HttpResponse) (creds : SpotifyCreds)
    (refresh_token : List Nat) : List Nat → Option CachedToken → List HttpRequest
  | [], _ => []
  | now :: laterCalls, st =>
    let out := getAccessToken now (providerRefreshOutcome fetchFn creds refresh_token) st
    (if out.2.2 = 1 then providerRefreshRequests fetchFn creds refresh_token else []) ++
      runProviderLog fetchFn creds refresh_token laterCalls out.2.1

/-! ### Mapping lemmas -/

theorem hasKey_eq_lookup_isSome (l : List (List Nat × List Nat)) (k : List Nat) :
    hasKey l k = (lookupKey k l).isSome := by
  induction l with
  | nil => rfl
  | cons kv rest ih =>
    by_cases h : kv.1 = k
    · simp [hasKey, lookupKey, h]
    · have h1 : hasKey (kv :: rest) k = hasKey rest k := by
        simp [hasKey, h]
      have h2 : lookupKey k (kv :: rest) = lookupKey k rest := by
        simp [lookupKey, h]
      rw [h1, h2, ih]

theorem hasKey_setEntry (acc : List (List Nat × List Nat)) (k0 v0 k : List Nat) :
    hasKey (setEntry acc k0 v0) k = (hasKey acc k || decide (k0 = k)) := by
  unfold setEntry
  by_cases hany : acc.any (fun p => decide (p.1 = k0)) = true
  · rw [if_pos hany]
    have hg1 : ∀ p : List Nat × List Nat,
        (if p.1 = k0 then ((k0, v0) : List Nat × List Nat) else p).1 = p.1 := by
      intro p
      by_cases hp : p.1 = k0 <;> simp [hp]
    have hkeys : hasKey (acc.map (fun p => if p.1 = k0 then (k0, v0) else p)) k
        = hasKey acc k := by
      unfold hasKey
      rw [List.any_map]
      have hfun : ((fun p : List Nat × List Nat => decide (p.1 = k)) ∘
          (fun p => if p.1 = k0 then (k0, v0) else p))
          = (fun p : List Nat × List Nat => decide (p.1 = k)) := by
        funext p
        simp only [Function.comp_apply, hg1 p]
      rw [hfun]
    rw [hkeys]
    by_cases hk : k0 = k
    · subst hk
      have : hasKey acc k0 = true := by
        unfold hasKey
        exact hany
      simp [this]
    · simp [hk]
  · rw [if_neg hany]
    unfold hasKey
    simp [List.any_append]

theorem hasKey_foldl_setEntry (l acc : List (List Nat × List Nat)) (k : List Nat) :
    hasKey (l.foldl (fun a kv => setEntry a kv.1 kv.2) acc) k
      = (hasKey acc k || hasKey l k) := by
  induction l generalizing acc with
  | nil => simp [hasKey]
  | cons kv rest ih =>
    rw [List.foldl_cons, ih, hasKey_setEntry]
    show _ = (hasKey acc k || (kv :: rest).any (fun p => decide (p.1 = k)))
    rw [List.any_cons]
    rw [Bool.or_assoc]
    rfl

theorem hasKey_fromEntries (l : List (List Nat × List Nat)) (k : List Nat) :
    hasKey (fromEntries l) k = hasKey l k := by
  unfold fromEntries
  rw [hasKey_foldl_setEntry]
  rfl

theorem setEntry_not_mem (acc : List (List Nat × List Nat)) (k v : List Nat)
    (h : hasKey acc k = false) : setEntry acc k v = acc ++ [(k, v)] := by
  unfold setEntry
  rw [if_neg]
  intro hc
  rw [show (acc.any fun p => p.1 = k) = hasKey acc k from rfl, h] at hc
  exact Bool.false_ne_true hc

theorem foldl_setEntry_nodup (l acc : List (List Nat × List Nat))
    (h : (acc.map Prod.fst ++ l.map Prod.fst).Nodup) :
    l.foldl (fun a kv => setEntry a kv.1 kv.2) acc = acc ++ l := by
  induction l generalizing acc with
  | nil => simp
  | cons kv rest ih =>
    rw [List.foldl_cons]
    have hnm : hasKey acc kv.1 = false := by
      by_contra hc
      have hmem : kv.1 ∈ acc.map Prod.fst := by
        have := Bool.of_not_eq_false hc
        unfold hasKey at this
        rw [List.any_eq_true] at this
        obtain ⟨p, hp, hpk⟩ := this
        rw [decide_eq_true_eq] at hpk
        exact hpk ▸ List.mem_map_of_mem Prod.fst hp
      have hdisj := (List.nodup_append.mp h).2.2
      exact hdisj hmem (by simp)
    have hacc : ((acc ++ [(kv.1, kv.2)]).map Prod.fst ++ rest.map Prod.fst).Nodup := by
      rw [List.map_append, List.map_cons, List.map_nil, List.append_assoc,
        List.singleton_append]
      rw [List.map_cons] at h
      exact h
    rw [setEntry_not_mem acc kv.1 kv.2 hnm, ih (acc ++ [(kv.1, kv.2)]) hacc, List.append_assoc,
      List.singleton_append]

theorem fromEntries_nodup (l : List (List Nat × List Nat))
    (h : (l.map Prod.fst).Nodup) : fromEntries l = l := by
  unfold fromEntries
  rw [foldl_setEntry_nodup l [] (by simpa using h)]
  rfl

theorem presentEntries_keys_sublist (m : List (List Nat × Option (List Nat))) :
    List.Sublist ((presentEntries m).map Prod.fst) (m.map Prod.fst) := by
  induction m with
  | nil => simp [presentEntries]
  | cons kv rest ih =>
    rcases kv with ⟨k, v⟩
    cases v with
    | none =>
      simp only [presentEntries, List.filterMap_cons, Option.map_none, List.map_cons]
      exact List.Sublist.cons k ih
    | some v =>
      simp only [presentEntries, List.filterMap_cons, Option.map_some, List.map_cons]
      exact List.Sublist.cons₂ k ih

/-! ## Claim theorems -/

/-- C3: for every fragment, `parseCallbackData` returns a result whose shape is
determined by the decoded parameters: whenever they contain an `error` key it
returns the failure object (carrying that key); otherwise it returns a success
object exactly when `access_token`, `expires_in` and `token_type` are all
present; in every other case it fails instead of returning a value.  The three
behaviours at the specification examples are included. -/
theorem parseCallbackData_shape (hash : List Nat) :
    ((lookupKey (bs "error") (decodeQuery (hash.drop 1))).isSome = true →
      ∃ p, parseCallbackData hash = some p ∧ hasKey p (bs "error") = true) ∧
    ((lookupKey (bs "error") (decodeQuery (hash.drop 1))).isSome = false →
      ((∃ p, parseCallbackData hash = some p) ↔
        ((lookupKey (bs "access_token") (decodeQuery (hash.drop 1))).isSome = true ∧
         (lookupKey (bs "expires_in") (decodeQuery (hash.drop 1))).isSome = true ∧
         (lookupKey (bs "token_type") (decodeQuery (hash.drop 1))).isSome = true))) ∧
    parseCallbackData (bs "#access_token=abc&token_type=Bearer&expires_in=3600") =
      some [(bs "access_token", bs "abc"), (bs "token_type", bs "Bearer"),
            (bs "expires_in", bs "3600")] ∧
    parseCallbackData (bs "#error=access_denied&state=xyz") =
      some [(bs "error", bs "access_denied"), (bs "state", bs "xyz")] ∧
    parseCallbackData (bs "#foo=bar") = none := by
  refine ⟨?_, ?_, by decide, by decide, by decide⟩
  · intro herr
    refine ⟨fromEntries (decodeQuery (hash.drop 1)), ?_, ?_⟩
    · unfold parseCallbackData
      rw [if_pos]
      rw [hasKey_fromEntries, hasKey_eq_lookup_isSome]
      exact herr
    · rw [hasKey_fromEntries, hasKey_eq_lookup_isSome]
      exact herr
  · intro herr
    have hkey : ∀ k, hasKey (fromEntries (decodeQuery (hash.drop 1))) k
        = (lookupKey k (decodeQuery (hash.drop 1))).isSome := by
      intro k
      rw [hasKey_fromEntries, hasKey_eq_lookup_isSome]
    have herr2 : hasKey (fromEntries (decodeQuery (hash.drop 1))) (bs "error") = false := by
      rw [hkey]
      exact herr
    constructor
    · rintro ⟨p, hp⟩
      unfold parseCallbackData at hp
      rw [if_neg (by rw [herr2]; exact Bool.false_ne_true)] at hp
      by_cases hall : (hasKey (fromEntries (decodeQuery (hash.drop 1))) (bs "access_token") &&
          hasKey (fromEntries (decodeQuery (hash.drop 1))) (bs "expires_in") &&
          hasKey (fromEntries (decodeQuery (hash.drop 1))) (bs "token_type")) = true
      · simp only [Bool.and_eq_true, hkey] at hall
        exact ⟨hall.1.1, hall.1.2, hall.2⟩
      · rw [if_neg hall] at hp
        exact absurd hp (Option.some_ne_none p).symm
    · rintro ⟨h1, h2, h3⟩
      refine ⟨fromEntries (decodeQuery (hash.drop 1)), ?_⟩
      unfold parseCallbackData
      rw [if_neg (by rw [herr2]; exact Bool.false_ne_true), if_pos]
      simp only [Bool.and_eq_true, hkey]
      exact ⟨⟨h1, h2⟩, h3⟩

/-- C3 witness: at the error-shaped fragment the first hypothesis holds and the
parser returns the failure object. -/
theorem parseCallbackData_shape_witness :
    ∃ p, parseCallbackData (bs "#error=access_denied&state=xyz") = some p ∧
      hasKey p (bs "error") = true :=
  (parseCallbackData_shape (bs "#error=access_denied&state=xyz")).1 (by decide)

/-- C9: `parseCallbackData` discards the first character of its argument
unconditionally — the result never depends on what that character is — so a
fragment given without its leading `#` loses the first character of its first
key: the well-formed success fragment stripped of `#` decodes with first key
`ccess_token` and is rejected, while the same fragment with `#` parses. -/
theorem parseCallbackData_ignores_first_char :
    (∀ c c2 rest, parseCallbackData (c :: rest) = parseCallbackData (c2 :: rest)) ∧
    decodeQuery ((bs "access_token=abc&token_type=Bearer&expires_in=3600").drop 1) =
      [(bs "ccess_token", bs "abc"), (bs "token_type", bs "Bearer"),
       (bs "expires_in", bs "3600")] ∧
    parseCallbackData (bs "access_token=abc&token_type=Bearer&expires_in=3600") = none ∧
    parseCallbackData (bs "#access_token=abc&token_type=Bearer&expires_in=3600") =
      some [(bs "access_token", bs "abc"), (bs "token_type", bs "Bearer"),
            (bs "expires_in", bs "3600")] := by
  exact ⟨fun c c2 rest => rfl, by decide, by decide, by decide⟩

/-- C4: a `getAccessToken` call invokes the refresh function exactly once when
the provider has no cached token or the cached expiry is not after the current
time, and zero times — returning the cached token unchanged — when the cached
token is still valid; consequently, seeded with a token expiring in the past,
the first call refreshes once, a second call before the new expiry refreshes
zero times, and a call at or after the new expiry refreshes once more. -/
theorem getAccessToken_refresh_count (now t1 t2 t3 e0 e1 e3 : Nat)
    (outcome o2 : RefreshOutcome) (st : Option CachedToken)
    (tok tok1 tok3 : List Nat) :
    (needsRefresh st now → (getAccessToken now outcome st).2.2 = 1) ∧
    (∀ c, st = some c → now < c.expires_at →
      (getAccessToken now outcome st).2.2 = 0 ∧
      (getAccessToken now outcome st).1 = some c.access_token ∧
      (getAccessToken now outcome st).2.1 = some c) ∧
    (e0 ≤ t1 → t2 < t1 + e1 → t1 + e1 ≤ t3 →
      (getAccessToken t1 (.ok ⟨tok1, e1⟩) (some ⟨tok, e0⟩)).2.2 = 1 ∧
      (getAccessToken t2 o2
        ((getAccessToken t1 (.ok ⟨tok1, e1⟩) (some ⟨tok, e0⟩)).2.1)).2.2 = 0 ∧
      (getAccessToken t3 (.ok ⟨tok3, e3⟩)
        ((getAccessToken t2 o2
          ((getAccessToken t1 (.ok ⟨tok1, e1⟩) (some ⟨tok, e0⟩)).2.1)).2.1)).2.2 = 1) := by
  refine ⟨?_, ?_, ?_⟩
  · intro h
    rcases h with rfl | ⟨c, rfl, hc⟩
    · cases outcome <;> simp [getAccessToken, refreshStep]
    · have hnv : ¬ now < c.expires_at := by omega
      cases outcome <;> simp [getAccessToken, refreshStep, hnv]
  · rintro c rfl hc
    simp [getAccessToken, hc]
  · intro h1 h2 h3
    have hn1 : ¬ t1 < (⟨tok, e0⟩ : CachedToken).expires_at := by
      simp only []
      omega
    have hr1 : getAccessToken t1 (.ok ⟨tok1, e1⟩) (some ⟨tok, e0⟩)
        = (some tok1, some ⟨tok1, t1 + e1⟩, 1) := by
      simp [getAccessToken, refreshStep, hn1]
    have hv2 : t2 < (⟨tok1, t1 + e1⟩ : CachedToken).expires_at := by
      simp only []
      omega
    have hr2 : getAccessToken t2 o2 (some ⟨tok1, t1 + e1⟩)
        = (some tok1, some ⟨tok1, t1 + e1⟩, 0) := by
      simp [getAccessToken, hv2]
    have hn3 : ¬ t3 < (⟨tok1, t1 + e1⟩ : CachedToken).expires_at := by
      simp only []
      omega
    refine ⟨by rw [hr1], ?_, ?_⟩
    · rw [hr1]
      show (getAccessToken t2 o2 (some ⟨tok1, t1 + e1⟩)).2.2 = 0
      rw [hr2]
    · rw [hr1]
      show (getAccessToken t3 (.ok ⟨tok3, e3⟩)
        ((getAccessToken t2 o2 (some ⟨tok1, t1 + e1⟩)).2.1)).2.2 = 1
      rw [hr2]
      show (getAccessToken t3 (.ok ⟨tok3, e3⟩) (some ⟨tok1, t1 + e1⟩)).2.2 = 1
      simp [getAccessToken, refreshStep, hn3]

/-- C4 witness: a concrete run with the seeded-expired scenario. -/
theorem getAccessToken_refresh_count_witness :
    (getAccessToken 100 (.ok ⟨bs "t1", 50⟩) (some ⟨bs "t0", 10⟩)).2.2 = 1 ∧
    (getAccessToken 120 .failed
      ((getAccessToken 100 (.ok ⟨bs "t1", 50⟩) (some ⟨bs "t0", 10⟩)).2.1)).2.2 = 0 ∧
    (getAccessToken 200 (.ok ⟨bs "t3", 60⟩)
      ((getAccessToken 120 .failed
        ((getAccessToken 100 (.ok ⟨bs "t1", 50⟩) (some ⟨bs "t0", 10⟩)).2.1)).2.1)).2.2 = 1 :=
  (getAccessToken_refresh_count 0 100 120 200 10 50 60 .failed .failed none
    (bs "t0") (bs "t1") (bs "t3")).2.2 (by omega) (by omega) (by omega)

/-- C5: when the refresh function fails during a `getAccessToken` call, the
cached-token state is returned unchanged (this holds for every state), the
failure is propagated as an empty result whenever a refresh was actually
attempted, and the immediately following call behaves exactly as a call on the
original state — no failure is cached. -/
theorem getAccessToken_failure_keeps_state (now now2 : Nat) (st : Option CachedToken)
    (o2 : RefreshOutcome) :
    (getAccessToken now .failed st).2.1 = st ∧
    (needsRefresh st now →
      (getAccessToken now .failed st).1 = none ∧
      (getAccessToken now .failed st).2.2 = 1) ∧
    getAccessToken now2 o2 ((getAccessToken now .failed st).2.1)
      = getAccessToken now2 o2 st := by
  have hst : (getAccessToken now .failed st).2.1 = st := by
    cases st with
    | none => simp [getAccessToken, refreshStep]
    | some c =>
      by_cases hc : now < c.expires_at
      · simp [getAccessToken, hc]
      · simp [getAccessToken, refreshStep, hc]
  refine ⟨hst, ?_, by rw [hst]⟩
  intro h
  rcases h with rfl | ⟨c, rfl, hc⟩
  · simp [getAccessToken, refreshStep]
  · have hnv : ¬ now < c.expires_at := by omega
    simp [getAccessToken, refreshStep, hnv]

/-- C5 witness: a concrete failing refresh at an expired cached token. -/
theorem getAccessToken_failure_keeps_state_witness :
    (getAccessToken 50 .failed (some ⟨bs "t0", 20⟩)).1 = none ∧
    (getAccessToken 50 .failed (some ⟨bs "t0", 20⟩)).2.2 = 1 :=
  (getAccessToken_failure_keeps_state 50 60 (some ⟨bs "t0", 20⟩) .failed).2.1
    (Or.inr ⟨⟨bs "t0", 20⟩, rfl, by decide⟩)

/-- C10: every request that a provider built by `AuthCode.createAuthProvider`
ever sends over the wire — across any sequence of `getAccessToken` calls, from
any starting state — is exactly the refresh request built from the credentials
and the refresh token captured at construction time. -/
theorem runProviderLog_requests (fetchFn : HttpRequest → HttpResponse)
    (creds : SpotifyCreds) (refresh_token : List Nat) (nows : List Nat)
    (st : Option CachedToken) :
    ∀ req ∈ runProviderLog fetchFn creds refresh_token nows st,
      req = refreshRequest creds refresh_token := by
  induction nows generalizing st with
  | nil =>
    intro req hreq
    simp [runProviderLog] at hreq
  | cons now rest ih =>
    intro req hreq
    unfold runProviderLog at hreq
    rw [List.mem_append] at hreq
    rcases hreq with hreq | hreq
    · by_cases hc : (getAccessToken now
          (providerRefreshOutcome fetchFn creds refresh_token) st).2.2 = 1
      · rw [if_pos hc] at hreq
        have : providerRefreshRequests fetchFn creds refresh_token
            = [refreshRequest creds refresh_token] := rfl
        rw [this, List.mem_singleton] at hreq
        exact hreq
      · rw [if_neg hc] at hreq
        exact absurd hreq (List.not_mem_nil req)
    · exact ih _ req hreq

/-- C10 witness: a concrete single-call run logs exactly the bound request. -/
theorem runProviderLog_requests_witness :
    refreshRequest ⟨bs "id", bs "secret"⟩ (bs "rtok")
      = refreshRequest ⟨bs "id", bs "secret"⟩ (bs "rtok") :=
  runProviderLog_requests (fun _ => ⟨200, Json.null⟩) ⟨bs "id", bs "secret"⟩ (bs "rtok")
    [0] none (refreshRequest ⟨bs "id", bs "secret"⟩ (bs "rtok"))
    (by rw [show runProviderLog (fun _ => ⟨200, Json.null⟩) ⟨bs "id", bs "secret"⟩ (bs "rtok")
          [0] none = [refreshRequest ⟨bs "id", bs "secret"⟩ (bs "rtok")] from rfl]
        exact List.mem_singleton.mpr rfl)

theorem presentEntries_cons_some (k v : List Nat) (rest : List (List Nat × Option (List Nat))) :
    presentEntries ((k, some v) :: rest) = (k, v) :: presentEntries rest := by
  simp [presentEntries]

theorem presentEntries_cons_none (k : List Nat) (rest : List (List Nat × Option (List Nat))) :
    presentEntries ((k, none) :: rest) = presentEntries rest := by
  simp [presentEntries]

theorem lookupKey_head (k v : List Nat) (rest : List (List Nat × List Nat)) :
    lookupKey k ((k, v) :: rest) = some v := by
  simp [lookupKey]

theorem lookupKey_cons_ne (k k0 v0 : List Nat) (rest : List (List Nat × List Nat))
    (h : k0 ≠ k) : lookupKey k ((k0, v0) :: rest) = lookupKey k rest := by
  simp [lookupKey, h]

theorem key_response_type_ne_scope : bs "response_type" ≠ bs "scope" := by decide

theorem key_client_id_ne_scope : bs "client_id" ≠ bs "scope" := by decide

theorem key_redirect_uri_ne_scope : bs "redirect_uri" ≠ bs "scope" := by decide

theorem key_state_ne_scope : bs "state" ≠ bs "scope" := by decide

theorem key_show_dialog_ne_scope : bs "show_dialog" ≠ bs "scope" := by decide

/-- C6: for every credential set and every caller-supplied option object, the
authorization-URL builders place `response_type` in the query with the flow's
fixed literal — `"code"` for `AuthCode.getAuthURL` and `"token"` for the
implicit-flow `getRedirectURL` — and the decoded query is exactly the present
request fields, i.e. all other fields are merged in. -/
theorem authURL_response_type_forced (creds : SpotifyCreds) (opts : GetAuthURLOpts)
    (iopts : GetRedirectURLOpts)
    (hv : validEntries (getAuthURLEntries creds opts) = true)
    (hv2 : validEntries (getRedirectURLEntries iopts) = true) :
    decodeQuery (getAuthURL creds opts).query = presentEntries (getAuthURLEntries creds opts) ∧
    lookupKey (bs "response_type") (decodeQuery (getAuthURL creds opts).query)
      = some (bs "code") ∧
    decodeQuery (getRedirectURL iopts).query = presentEntries (getRedirectURLEntries iopts) ∧
    lookupKey (bs "response_type") (decodeQuery (getRedirectURL iopts).query)
      = some (bs "token") := by
  have hq : decodeQuery (getAuthURL creds opts).query
      = presentEntries (getAuthURLEntries creds opts) :=
    decodeQuery_toQueryString _ hv
  have hq2 : decodeQuery (getRedirectURL iopts).query
      = presentEntries (getRedirectURLEntries iopts) :=
    decodeQuery_toQueryString _ hv2
  refine ⟨hq, ?_, hq2, ?_⟩
  · rw [hq, show getAuthURLEntries creds opts
        = (bs "response_type", some (bs "code")) ::
          [(bs "scope", opts.scopes.map joinSpace),
           (bs "client_id", some creds.client_id),
           (bs "redirect_uri", some opts.redirect_uri),
           (bs "state", opts.state),
           (bs "show_dialog", opts.show_dialog.map boolBytes)] from rfl,
      presentEntries_cons_some, lookupKey_head]
  · rw [hq2, show getRedirectURLEntries iopts
        = (bs "response_type", some (bs "token")) ::
          [(bs "scope", iopts.scopes.map joinSpace),
           (bs "show_dialog", iopts.show_dialog.map boolBytes),
           (bs "client_id", some iopts.client_id),
           (bs "redirect_uri", some iopts.redirect_uri),
           (bs "state", iopts.state)] from rfl,
      presentEntries_cons_some, lookupKey_head]

/-- C6 witness: concrete credentials and options. -/
theorem authURL_response_type_forced_witness :
    lookupKey (bs "response_type")
        (decodeQuery (getAuthURL ⟨bs "id", bs "sec"⟩
          ⟨bs "https://cb", some (bs "st"), some [bs "user-read-email"], some true⟩).query)
      = some (bs "code") ∧
    lookupKey (bs "response_type")
        (decodeQuery (getRedirectURL
          ⟨some [bs "user-read-email"], some false, bs "id", bs "https://cb",
            none⟩).query)
      = some (bs "token") :=
  ⟨(authURL_response_type_forced ⟨bs "id", bs "sec"⟩
      ⟨bs "https://cb", some (bs "st"), some [bs "user-read-email"], some true⟩
      ⟨some [bs "user-read-email"], some false, bs "id", bs "https://cb", none⟩
      (by decide) (by decide)).2.1,
   (authURL_response_type_forced ⟨bs "id", bs "sec"⟩
      ⟨bs "https://cb", some (bs "st"), some [bs "user-read-email"], some true⟩
      ⟨some [bs "user-read-email"], some false, bs "id", bs "https://cb", none⟩
      (by decide) (by decide)).2.2.2⟩

/-- C7: decoding the encoding of a mapping of byte-string values with no
duplicate keys reproduces exactly its present entries — omitted entries are
absent from the result, not empty strings — and consequently decoding the
query of a built authorization URL yields back the original request fields. -/
theorem queryCodec_roundtrip (m : List (List Nat × Option (List Nat)))
    (creds : SpotifyCreds) (opts : GetAuthURLOpts)
    (hm : validEntries m = true)
    (hnd : ((presentEntries m).map Prod.fst).Nodup)
    (hv : validEntries (getAuthURLEntries creds opts) = true) :
    decodeQuery (toQueryString m) = presentEntries m ∧
    fromEntries (decodeQuery (toQueryString m)) = presentEntries m ∧
    fromEntries (decodeQuery (getAuthURL creds opts).query)
      = presentEntries (getAuthURLEntries creds opts) := by
  have hq := decodeQuery_toQueryString m hm
  have hnd2 : ((presentEntries (getAuthURLEntries creds opts)).map Prod.fst).Nodup := by
    apply List.Nodup.sublist (presentEntries_keys_sublist (getAuthURLEntries creds opts))
    rw [show (getAuthURLEntries creds opts).map Prod.fst
        = [bs "response_type", bs "scope", bs "client_id", bs "redirect_uri",
           bs "state", bs "show_dialog"] from rfl]
    decide
  refine ⟨hq, ?_, ?_⟩
  · rw [hq, fromEntries_nodup _ hnd]
  · rw [show (getAuthURL creds opts).query = toQueryString (getAuthURLEntries creds opts)
        from rfl,
      decodeQuery_toQueryString _ hv, fromEntries_nodup _ hnd2]

/-- C7 witness: a concrete mapping with an omitted entry, and concrete
authorization-URL options. -/
theorem queryCodec_roundtrip_witness :
    decodeQuery (toQueryString
        [(bs "a b", some (bs "c&d=e")), (bs "x", none), (bs "y", some (bs ""))])
      = [(bs "a b", bs "c&d=e"), (bs "y", bs "")] :=
  (queryCodec_roundtrip
    [(bs "a b", some (bs "c&d=e")), (bs "x", none), (bs "y", some (bs ""))]
    ⟨bs "id", bs "sec"⟩ ⟨bs "https://cb", none, none, none⟩
    (by decide) (by decide) (by decide)).1.trans (by decide)

/-- C8: for both authorization-URL builders, when a scope list is supplied the
`scope` query parameter decodes to the identifiers joined by single spaces in
their original order (duplicates kept, as `joinSep` keeps the list as given),
and when no scope list is supplied the `scope` parameter is absent from the
query entirely. -/
theorem authURL_scope_param (creds : SpotifyCreds) (opts : GetAuthURLOpts)
    (iopts : GetRedirectURLOpts)
    (hv : validEntries (getAuthURLEntries creds opts) = true)
    (hv2 : validEntries (getRedirectURLEntries iopts) = true) :
    (∀ l, opts.scopes = some l →
      lookupKey (bs "scope") (decodeQuery (getAuthURL creds opts).query)
        = some (joinSpace l)) ∧
    (opts.scopes = none →
      lookupKey (bs "scope") (decodeQuery (getAuthURL creds opts).query) = none) ∧
    (∀ l, iopts.scopes = some l →
      lookupKey (bs "scope") (decodeQuery (getRedirectURL iopts).query)
        = some (joinSpace l)) ∧
    (iopts.scopes = none →
      lookupKey (bs "scope") (decodeQuery (getRedirectURL iopts).query) = none) := by
  have hq : decodeQuery (getAuthURL creds opts).query
      = presentEntries (getAuthURLEntries creds opts) :=
    decodeQuery_toQueryString _ hv
  have hq2 : decodeQuery (getRedirectURL iopts).query
      = presentEntries (getRedirectURLEntries iopts) :=
    decodeQuery_toQueryString _ hv2
  refine ⟨?_, ?_, ?_, ?_⟩
  · intro l hl
    rw [hq]
    show lookupKey (bs "scope") (presentEntries
      ((bs "response_type", some (bs "code")) :: (bs "scope", opts.scopes.map joinSpace) ::
        [(bs "client_id", some creds.client_id),
         (bs "redirect_uri", some opts.redirect_uri),
         (bs "state", opts.state),
         (bs "show_dialog", opts.show_dialog.map boolBytes)])) = some (joinSpace l)
    rw [hl]
    simp only [presentEntries_cons_some]
    rw [show Option.map joinSpace (some l) = some (joinSpace l) from rfl,
      presentEntries_cons_some]
    rw [lookupKey_cons_ne _ _ _ _ key_response_type_ne_scope, lookupKey_head]
  · intro hl
    rw [hq]
    show lookupKey (bs "scope") (presentEntries
      ((bs "response_type", some (bs "code")) :: (bs "scope", opts.scopes.map joinSpace) ::
        [(bs "client_id", some creds.client_id),
         (bs "redirect_uri", some opts.redirect_uri),
         (bs "state", opts.state),
         (bs "show_dialog", opts.show_dialog.map boolBytes)])) = none
    rw [hl]
    rcases hst : opts.state with _ | st0 <;> rcases hsd : opts.show_dialog with _ | sd0 <;>
      simp [presentEntries_cons_some, presentEntries_cons_none, presentEntries, lookupKey,
        key_response_type_ne_scope, key_client_id_ne_scope, key_redirect_uri_ne_scope,
        key_state_ne_scope, key_show_dialog_ne_scope]
  · intro l hl
    rw [hq2]
    show lookupKey (bs "scope") (presentEntries
      ((bs "response_type", some (bs "token")) :: (bs "scope", iopts.scopes.map joinSpace) ::
        [(bs "show_dialog", iopts.show_dialog.map boolBytes),
         (bs "client_id", some iopts.client_id),
         (bs "redirect_uri", some iopts.redirect_uri),
         (bs "state", iopts.state)])) = some (joinSpace l)
    rw [hl]
    simp only [presentEntries_cons_some]
    rw [show Option.map joinSpace (some l) = some (joinSpace l) from rfl,
      presentEntries_cons_some]
    rw [lookupKey_cons_ne _ _ _ _ key_response_type_ne_scope, lookupKey_head]
  · intro hl
    rw [hq2]
    show lookupKey (bs "scope") (presentEntries
      ((bs "response_type", some (bs "token")) :: (bs "scope", iopts.scopes.map joinSpace) ::
        [(bs "show_dialog", iopts.show_dialog.map boolBytes),
         (bs "client_id", some iopts.client_id),
         (bs "redirect_uri", some iopts.redirect_uri),
         (bs "state", iopts.state)])) = none
    rw [hl]
    rcases hst : iopts.state with _ | st0 <;> rcases hsd : iopts.show_dialog with _ | sd0 <;>
      simp [presentEntries_cons_some, presentEntries_cons_none, presentEntries, lookupKey,
        key_response_type_ne_scope, key_client_id_ne_scope, key_redirect_uri_ne_scope,
        key_state_ne_scope, key_show_dialog_ne_scope]

/-- C8 witness: a two-scope list joins with one space and keeps order; an
omitted scope list leaves the parameter out. -/
theorem authURL_scope_param_witness :
    lookupKey (bs "scope") (decodeQuery (getAuthURL ⟨bs "id", bs "sec"⟩
        ⟨bs "https://cb", none, some [bs "user-read-email", bs "user-top-read"],
          none⟩).query)
      = some (bs "user-read-email user-top-read") ∧
    lookupKey (bs "scope") (decodeQuery (getRedirectURL
        ⟨none, none, bs "id", bs "https://cb", none⟩).query) = none :=
  ⟨((authURL_scope_param ⟨bs "id", bs "sec"⟩
      ⟨bs "https://cb", none, some [bs "user-read-email", bs "user-top-read"], none⟩
      ⟨none, none, bs "id", bs "https://cb", none⟩
      (by decide) (by decide)).1 [bs "user-read-email", bs "user-top-read"] rfl).trans
    (by decide),
   (authURL_scope_param ⟨bs "id", bs "sec"⟩
      ⟨bs "https://cb", none, some [bs "user-read-email", bs "user-top-read"], none⟩
      ⟨none, none, bs "id", bs "https://cb", none⟩
      (by decide) (by decide)).2.2.2 rfl⟩

/-- C1 counterexample: at concrete credentials, code and redirect URI the token
request of `AuthCode.getGrantData` carries no body at all — the url-encoded
parameters are not in the request body (they are placed in the URL query). -/
theorem getGrantData_no_body :
    (getGrantDataRequest ⟨bs "id", bs "secret"⟩ (bs "https://cb") (bs "authcode")).body
        = none ∧
    decodeQuery (getGrantDataRequest ⟨bs "id", bs "secret"⟩ (bs "https://cb")
        (bs "authcode")).url.query
      = [(bs "code", bs "authcode"), (bs "redirect_uri", bs "https://cb"),
         (bs "grant_type", bs "authorization_code")] := by
  exact ⟨rfl, by decide⟩

/-- C1 (amended): for every code and redirect URI, `AuthCode.getGrantData`
issues exactly one POST request to the token endpoint; the request carries no
body, and its URL query string carries the url-encoded parameters
`code`, `redirect_uri` and `grant_type = authorization_code`; its headers are
exactly `Authorization` with the Basic-auth value and `Content-Type` with
`application/x-www-form-urlencoded`; on an HTTP success status the call
returns the token pair parsed from the response JSON. -/
theorem getGrantData_request_contract (fetchFn : HttpRequest → HttpResponse)
    (creds : SpotifyCreds) (redirect_uri code : List Nat)
    (hv : validEntries (getGrantDataEntries redirect_uri code) = true) :
    (getGrantData fetchFn creds redirect_uri code).2
      = [getGrantDataRequest creds redirect_uri code] ∧
    (getGrantDataRequest creds redirect_uri code).method = bs "POST" ∧
    (getGrantDataRequest creds redirect_uri code).url.base
      = bs "https://accounts.spotify.com/api/token" ∧
    (getGrantDataRequest creds redirect_uri code).body = none ∧
    (getGrantDataRequest creds redirect_uri code).headers
      = [(bs "Authorization", getBasicAuthHeader creds.client_id creds.client_secret),
         (bs "Content-Type", bs "application/x-www-form-urlencoded")] ∧
    decodeQuery (getGrantDataRequest creds redirect_uri code).url.query
      = [(bs "code", code), (bs "redirect_uri", redirect_uri),
         (bs "grant_type", bs "authorization_code")] ∧
    (isOk (fetchFn (getGrantDataRequest creds redirect_uri code)).status = true →
      (getGrantData fetchFn creds redirect_uri code).1
        = .ok (fetchFn (getGrantDataRequest creds redirect_uri code)).json) := by
  refine ⟨rfl, rfl, rfl, rfl, rfl, ?_, ?_⟩
  · rw [show (getGrantDataRequest creds redirect_uri code).url.query
        = toQueryString (getGrantDataEntries redirect_uri code) from rfl,
      decodeQuery_toQueryString _ hv]
    rfl
  · intro hok
    simp [getGrantData, hok]

/-- C1 (amended) witness: concrete inputs with evaluable parameters. -/
theorem getGrantData_request_contract_witness :
    decodeQuery (getGrantDataRequest ⟨bs "i", bs "s"⟩ (bs "cb") (bs "c0")).url.query
      = [(bs "code", bs "c0"), (bs "redirect_uri", bs "cb"),
         (bs "grant_type", bs "authorization_code")] :=
  (getGrantData_request_contract (fun _ => ⟨200, Json.null⟩) ⟨bs "i", bs "s"⟩
    (bs "cb") (bs "c0") (by decide)).2.2.2.2.2.1

/-- C2: for every transport response, `AuthCode.getGrantData` and
`AuthCode.refresh` fail exactly when the HTTP status is not a success status;
on failure the raised error carries the `error` and `error_description` fields
parsed from the response JSON together with the HTTP status; on a success
status they return the parsed response JSON and never an error. -/
theorem tokenEndpoint_error_contract (fetchFn : HttpRequest → HttpResponse)
    (creds : SpotifyCreds) (redirect_uri code refresh_token : List Nat) :
    ((∃ e, (getGrantData fetchFn creds redirect_uri code).1 = .error e) ↔
      isOk (fetchFn (getGrantDataRequest creds redirect_uri code)).status = false) ∧
    (isOk (fetchFn (getGrantDataRequest creds redirect_uri code)).status = false →
      (getGrantData fetchFn creds redirect_uri code).1 = .error
        { error := jsonField (fetchFn (getGrantDataRequest creds redirect_uri code)).json
            (bs "error")
          error_description :=
            jsonField (fetchFn (getGrantDataRequest creds redirect_uri code)).json
              (bs "error_description")
          status := (fetchFn (getGrantDataRequest creds redirect_uri code)).status }) ∧
    (isOk (fetchFn (getGrantDataRequest creds redirect_uri code)).status = true →
      (getGrantData fetchFn creds redirect_uri code).1
        = .ok (fetchFn (getGrantDataRequest creds redirect_uri code)).json) ∧
    ((∃ e, (refresh fetchFn creds refresh_token).1 = .error e) ↔
      isOk (fetchFn (refreshRequest creds refresh_token)).status = false) ∧
    (isOk (fetchFn (refreshRequest creds refresh_token)).status = false →
      (refresh fetchFn creds refresh_token).1 = .error
        { error := jsonField (fetchFn (refreshRequest creds refresh_token)).json (bs "error")
          error_description :=
            jsonField (fetchFn (refreshRequest creds refresh_token)).json
              (bs "error_description")
          status := (fetchFn (refreshRequest creds refresh_token)).status }) ∧
    (isOk (fetchFn (refreshRequest creds refresh_token)).status = true →
      (refresh fetchFn creds refresh_token).1
        = .ok (fetchFn (refreshRequest creds refresh_token)).json) := by
  refine ⟨?_, ?_, ?_, ?_, ?_, ?_⟩
  · by_cases hok : isOk (fetchFn (getGrantDataRequest creds redirect_uri code)).status = true
    · simp [getGrantData, hok]
    · simp only [Bool.not_eq_true] at hok
      simp [getGrantData, hok]
  · intro hok
    simp [getGrantData, hok, SpotifyAuthError.create]
  · intro hok
    simp [getGrantData, hok]
  · by_cases hok : isOk (fetchFn (refreshRequest creds refresh_token)).status = true
    · simp [refresh, hok]
    · simp only [Bool.not_eq_true] at hok
      simp [refresh, hok]
  · intro hok
    simp [refresh, hok, SpotifyAuthError.create]
  · intro hok
    simp [refresh, hok]

/-- C2 witness: a transport answering HTTP 400 with an `invalid_grant` error
body makes the exchange fail with that parsed error and status 400. -/
theorem tokenEndpoint_error_contract_witness :
    (getGrantData
        (fun _ => ⟨400, Json.obj [(bs "error", Json.str (bs "invalid_grant"))]⟩)
        ⟨bs "i", bs "s"⟩ (bs "cb") (bs "c0")).1
      = .error
        { error := some (Json.str (bs "invalid_grant"))
          error_description := none
          status := 400 } :=
  ((tokenEndpoint_error_contract
      (fun _ => ⟨400, Json.obj [(bs "error", Json.str (bs "invalid_grant"))]⟩)
      ⟨bs "i", bs "s"⟩ (bs "cb") (bs "c0") (bs "rt")).2.1 rfl).trans
    (by rw [show jsonField (Json.obj [(bs "error", Json.str (bs "invalid_grant"))])
          (bs "error") = some (Json.str (bs "invalid_grant")) from by
            rw [jsonField]
            rw [List.lookup]
            simp,
        show jsonField (Json.obj [(bs "error", Json.str (bs "invalid_grant"))])
          (bs "error_description") = none from by
            rw [jsonField]
            rw [List.lookup]
            simp [bs]])
